import Mathlib

/-!
# Verification of the LAFM-Net training module

Shallow embedding of the pure/stateful cores of `train_lafm_net.py`
(LAFM-Net on CIC-IDS-2018) together with proofs of the specified
properties.  Numeric code working on floats is modelled over `ℚ` (for
the data-plumbing and control logic, which is exact) and over `ℝ` (for
the analytic components: sigmoid, cross-entropy, Pearson correlation).
-/

namespace LAFM

/-! ## Label consolidation (`consolidate_labels`, train_lafm_net.py lines 116-146)

Python's substring test `needle in hay` is embedded as `strContains`,
and `str.lower()` as `strLower` (character-wise ASCII lowering,
identical to Python's `lower` on the ASCII labels of CIC-IDS-2018). -/

/-- `needle` occurs as a contiguous substring of the character list. -/
def listContainsSub (needle : List Char) : List Char → Bool
  | [] => needle.isEmpty
  | c :: cs => needle.isPrefixOf (c :: cs) || listContainsSub needle cs

/-- Python's `needle in hay` on strings. -/
def strContains (hay needle : String) : Bool :=
  listContainsSub needle.data hay.data

/-- Python's `str.lower()`, character by character. -/
def strLower (s : String) : String :=
  ⟨s.data.map Char.toLower⟩

/-- One iteration of the loop body of `consolidate_labels`
(train_lafm_net.py lines 127-144): case-insensitive substring rules in
fixed priority order, with a fallback to `"Brute Force"`. -/
def consolidate_label (label : String) : String :=
  if strContains (strLower label) "benign" then "Benign"
  else if strContains (strLower label) "ddos" then "DDoS"
  else if strContains (strLower label) "dos" then "DoS"
  else if strContains (strLower label) "bot" then "Botnet"
  else if strContains (strLower label) "infil" then "Infiltration"
  else if ["brute", "bruteforce", "ssh", "ftp", "web", "xss", "sql"].any
      (fun x => strContains (strLower label) x) then "Brute Force"
  else "Brute Force"

/-- `consolidate_labels` (train_lafm_net.py lines 116-146): maps the
rule over the whole label column. -/
def consolidate_labels (labels : List String) : List String :=
  labels.map consolidate_label

/-- The six canonical consolidated classes. -/
def canonicalClasses : List String :=
  ["Benign", "DoS", "DDoS", "Botnet", "Infiltration", "Brute Force"]

/-- Every consolidated label is one of the six canonical classes. -/
lemma consolidate_label_mem (s : String) :
    consolidate_label s ∈ canonicalClasses := by
  unfold consolidate_label canonicalClasses
  split
  · simp
  · split
    · simp
    · split
      · simp
      · split
        · simp
        · split
          · simp
          · split <;> simp

/-- C4: `consolidate_labels` is a pure total function mapping every label
into one of the six classes, by case-insensitive substring rules checked
in the priority order benign > ddos > dos > bot > infil > brute-force
family, with every unmatched label falling back to `"Brute Force"`; the
four cited sample labels map as the spec states. -/
theorem consolidate_labels_spec :
    (∀ s : String, consolidate_label s ∈ canonicalClasses) ∧
    (∀ ls : List String, ∀ r ∈ consolidate_labels ls, r ∈ canonicalClasses) ∧
    (∀ s : String, strContains (strLower s) "benign" = true →
      consolidate_label s = "Benign") ∧
    (∀ s : String, strContains (strLower s) "benign" = false →
      strContains (strLower s) "ddos" = true → consolidate_label s = "DDoS") ∧
    (∀ s : String, strContains (strLower s) "benign" = false →
      strContains (strLower s) "ddos" = false →
      strContains (strLower s) "dos" = true → consolidate_label s = "DoS") ∧
    (∀ s : String, strContains (strLower s) "benign" = false →
      strContains (strLower s) "ddos" = false →
      strContains (strLower s) "dos" = false →
      strContains (strLower s) "bot" = true → consolidate_label s = "Botnet") ∧
    (∀ s : String, strContains (strLower s) "benign" = false →
      strContains (strLower s) "ddos" = false →
      strContains (strLower s) "dos" = false →
      strContains (strLower s) "bot" = false →
      strContains (strLower s) "infil" = true →
      consolidate_label s = "Infiltration") ∧
    (∀ s : String, strContains (strLower s) "benign" = false →
      strContains (strLower s) "ddos" = false →
      strContains (strLower s) "dos" = false →
      strContains (strLower s) "bot" = false →
      strContains (strLower s) "infil" = false →
      consolidate_label s = "Brute Force") ∧
    consolidate_labels ["BENIGN", "Benign-Traffic", "DDOS attack-HOIC",
        "FTP-BruteForce", "Infilteration"] =
      ["Benign", "Benign", "DDoS", "Brute Force", "Infiltration"] := by
  refine ⟨consolidate_label_mem, ?_, ?_, ?_, ?_, ?_, ?_, ?_, ?_⟩
  · intro ls r hr
    rcases List.mem_map.mp hr with ⟨s, _, rfl⟩
    exact consolidate_label_mem s
  · intro s h; simp [consolidate_label, h]
  · intro s h1 h2; simp [consolidate_label, h1, h2]
  · intro s h1 h2 h3; simp [consolidate_label, h1, h2, h3]
  · intro s h1 h2 h3 h4; simp [consolidate_label, h1, h2, h3, h4]
  · intro s h1 h2 h3 h4 h5; simp [consolidate_label, h1, h2, h3, h4, h5]
  · intro s h1 h2 h3 h4 h5; simp [consolidate_label, h1, h2, h3, h4, h5]
  · decide

/-- Closed witness for C4: the inner implications instantiated on the
concrete label `"DDOS attack-HOIC"`. -/
theorem consolidate_labels_spec_witness :
    consolidate_label "DDOS attack-HOIC" ∈ canonicalClasses ∧
    consolidate_label "DDOS attack-HOIC" = "DDoS" :=
  ⟨consolidate_labels_spec.1 "DDOS attack-HOIC",
   consolidate_labels_spec.2.2.2.1 "DDOS attack-HOIC" (by decide) (by decide)⟩

/-! ## Multichannel image construction
(`features_to_multichannel_image`, train_lafm_net.py lines 308-325)

The per-channel slice-or-pad logic of lines 311-323 is factored into
`channelSlice`; `numpy`'s row-major `reshape((image_size, image_size))`
is `reshapeSquare`, and `np.stack(channels, axis=0)` is the outer list.
The element type is kept generic over any type with a zero (`np.zeros`
fills with the zero element). -/

/-- Lines 311-323: the features of channel `c` starting at
`start = c * features_per_channel`; slices that run past the end of the
vector are padded with zeros, fully out-of-range slices are all zeros. -/
def channelSlice {α : Type} [Zero α] (v : List α) (start fpc : ℕ) : List α :=
  if start + fpc ≤ v.length then (v.drop start).take fpc
  else if start < v.length then
    v.drop start ++ List.replicate (fpc - (v.length - start)) 0
  else List.replicate fpc 0

/-- `numpy` row-major reshape of a vector of length `isz * isz` into an
`isz × isz` matrix. -/
def reshapeSquare {α : Type} (isz : ℕ) (l : List α) : List (List α) :=
  (List.range isz).map (fun r => (l.drop (r * isz)).take isz)

/-- `features_to_multichannel_image` (train_lafm_net.py lines 308-325). -/
def features_to_multichannel_image {α : Type} [Zero α] (feature_vector : List α)
    (num_channels features_per_channel image_size : ℕ) : List (List (List α)) :=
  (List.range num_channels).map (fun c =>
    reshapeSquare image_size
      (channelSlice feature_vector (c * features_per_channel) features_per_channel))

/-- Channel-major flattening of a (channels, rows, cols) tensor. -/
def flattenImage {α : Type} (img : List (List (List α))) : List α :=
  (img.map List.flatten).flatten

lemma channelSlice_length {α : Type} [Zero α] (v : List α) (start fpc : ℕ) :
    (channelSlice v start fpc).length = fpc := by
  unfold channelSlice
  split
  · rename_i h
    rw [List.length_take, List.length_drop]
    omega
  · split
    · rename_i h1 h2
      rw [List.length_append, List.length_drop, List.length_replicate]
      omega
    · exact List.length_replicate _ _

lemma channelSlice_eq_padded {α : Type} [Zero α] (v : List α) (start fpc pad : ℕ)
    (h : start + fpc ≤ v.length + pad) :
    channelSlice v start fpc =
      ((v ++ List.replicate pad (0 : α)).drop start).take fpc := by
  unfold channelSlice
  split
  · rename_i h1
    rw [List.drop_append_of_le_length (by omega),
      List.take_append_of_le_length (by rw [List.length_drop]; omega)]
  · split
    · rename_i h1 h2
      rw [List.drop_append_of_le_length (by omega),
        List.take_append_eq_append_take,
        List.take_of_length_le (by rw [List.length_drop]; omega),
        List.take_replicate, List.length_drop]
      congr 2
      omega
    · rename_i h1 h2
      rw [List.drop_append_eq_append_drop,
        List.drop_eq_nil_of_le (by omega), List.nil_append,
        List.drop_replicate, List.take_replicate]
      congr 1
      omega

/-- Concatenating the consecutive `n`-chunks of a list of length `k * n`
recovers the list. -/
lemma join_chunks {α : Type} (k n : ℕ) (l : List α) (h : l.length = k * n) :
    ((List.range k).map (fun r => (l.drop (r * n)).take n)).flatten = l := by
  induction k generalizing l with
  | zero =>
    simp only [List.range_zero, List.map_nil, List.flatten_nil]
    simp only [Nat.zero_mul] at h
    exact (List.eq_nil_of_length_eq_zero h).symm
  | succ k ih =>
    rw [List.range_succ_eq_map, List.map_cons, List.flatten_cons, List.map_map]
    have hmap : (List.range k).map ((fun r => (l.drop (r * n)).take n) ∘ Nat.succ)
        = (List.range k).map (fun r => ((l.drop n).drop (r * n)).take n) := by
      apply List.map_congr_left
      intro r _
      simp only [Function.comp_apply]
      rw [List.drop_drop]
      congr 2
      rw [Nat.succ_mul]
      ring
    rw [hmap, ih (l.drop n) (by rw [List.length_drop, h]; ring_nf; omega)]
    simp [List.take_append_drop]

/-- C2: for every feature vector, the output of
`features_to_multichannel_image` is a (num_channels, image_size,
image_size) tensor whose channel-major flattening equals the input
vector zero-padded to `total_features = num_channels *
features_per_channel` and truncated to that length (so short inputs are
zero-padded and long inputs contribute exactly their first
`total_features` values); the function is total, hence raises no error
for short input. -/
theorem features_to_multichannel_image_spec {α : Type} [Zero α] (v : List α)
    (nc fpc isz : ℕ) (h : fpc = isz * isz) :
    flattenImage (features_to_multichannel_image v nc fpc isz) =
      (v ++ List.replicate (nc * fpc) (0 : α)).take (nc * fpc) ∧
    (features_to_multichannel_image v nc fpc isz).length = nc ∧
    (∀ ch ∈ features_to_multichannel_image v nc fpc isz,
      ch.length = isz ∧ ∀ row ∈ ch, row.length = isz) := by
  refine ⟨?_, ?_, ?_⟩
  · set w : List α := (v ++ List.replicate (nc * fpc) (0 : α)).take (nc * fpc) with hw
    have hwlen : w.length = nc * fpc := by
      rw [hw, List.length_take, List.length_append, List.length_replicate]
      omega
    unfold flattenImage features_to_multichannel_image
    rw [List.map_map]
    have hmap : (List.range nc).map
          (List.flatten ∘ fun c => reshapeSquare isz (channelSlice v (c * fpc) fpc))
        = (List.range nc).map (fun c => (w.drop (c * fpc)).take fpc) := by
      apply List.map_congr_left
      intro c hc
      have hc' : c < nc := List.mem_range.mp hc
      simp only [Function.comp_apply]
      rw [show reshapeSquare isz (channelSlice v (c * fpc) fpc)
            = (List.range isz).map
                (fun r => ((channelSlice v (c * fpc) fpc).drop (r * isz)).take isz)
          from rfl,
        join_chunks isz isz _ (by rw [channelSlice_length]; exact h),
        channelSlice_eq_padded v (c * fpc) fpc (nc * fpc)
          (by nlinarith [Nat.succ_le_of_lt hc'])]
      rw [hw, List.drop_take, List.take_take]
      congr 1
      have : c * fpc + fpc ≤ nc * fpc := by nlinarith [Nat.succ_le_of_lt hc']
      omega
    rw [hmap, join_chunks nc fpc w hwlen]
  · unfold features_to_multichannel_image
    rw [List.length_map, List.length_range]
  · intro ch hch
    unfold features_to_multichannel_image at hch
    rcases List.mem_map.mp hch with ⟨c, _, rfl⟩
    constructor
    · unfold reshapeSquare
      rw [List.length_map, List.length_range]
    · intro row hrow
      unfold reshapeSquare at hrow
      rcases List.mem_map.mp hrow with ⟨r, hr, rfl⟩
      have hr' : r < isz := List.mem_range.mp hr
      rw [List.length_take, List.length_drop, channelSlice_length, h]
      have : r * isz + isz ≤ isz * isz := by nlinarith [Nat.succ_le_of_lt hr']
      omega

/-- Closed witness for C2: a length-5 integer vector rendered as a
2-channel 2×2 image flattens back to the zero-padded vector. -/
theorem features_to_multichannel_image_spec_witness :
    (4 = 2 * 2) ∧
    flattenImage (features_to_multichannel_image
        ([1, 2, 3, 4, 5] : List ℤ) 2 4 2) = [1, 2, 3, 4, 5, 0, 0, 0] :=
  ⟨rfl, (features_to_multichannel_image_spec ([1, 2, 3, 4, 5] : List ℤ)
      2 4 2 rfl).1.trans (by decide)⟩

/-! ## Early stopping (`EarlyStopping`, train_lafm_net.py lines 148-190)

Validation losses are modelled over `ℚ`.  PyTorch weight tensors are
mutable heap objects, so they are modelled as cells of an explicit
store: a model is the list of cell ids of its parameters,
`model.state_dict()` returns tensors aliasing those same cells (hence a
state dict is the same id list), `copy.deepcopy` allocates fresh cells
holding copies of the current values, and `model.load_state_dict`
writes the snapshot's values into the model's existing cells.  The
initial `val_loss_min = np.inf` is modelled by `none`. -/

/-- A heap of rational-valued weight cells. -/
structure Store where
  next : ℕ
  mem : ℕ → ℚ

/-- In-place mutation of one weight cell. -/
def Store.write (s : Store) (i : ℕ) (v : ℚ) : Store :=
  ⟨s.next, fun j => if j = i then v else s.mem j⟩

/-- Allocation of a fresh cell holding `v`. -/
def Store.alloc (s : Store) (v : ℚ) : ℕ × Store :=
  (s.next, ⟨s.next + 1, fun j => if j = s.next then v else s.mem j⟩)

/-- A state dict: the cell ids of the weight tensors, in order. -/
abbrev StateDict := List ℕ

/-- The current values of a state dict's tensors. -/
def readDict (st : Store) (d : StateDict) : List ℚ := d.map st.mem

/-- `copy.deepcopy(model.state_dict())`: fresh cells with copied values. -/
def deepcopyDict (st : Store) : StateDict → StateDict × Store
  | [] => ([], st)
  | i :: rest =>
    let p := st.alloc (st.mem i)
    let q := deepcopyDict p.2 rest
    (p.1 :: q.1, q.2)

/-- A sequence of in-place mutations (e.g. optimizer steps on the live
model). -/
def writeList (st : Store) (ws : List (ℕ × ℚ)) : Store :=
  ws.foldl (fun s w => s.write w.1 w.2) st

/-- `model.load_state_dict(snap)`: copy each saved tensor's value into
the corresponding live parameter cell. -/
def load_state_dict (st : Store) (model snap : StateDict) : Store :=
  (model.zip snap).foldl (fun s q => s.write q.1 (s.mem q.2)) st

/-- The `EarlyStopping` object's fields (train_lafm_net.py lines
149-159). -/
structure EarlyStopping where
  patience : ℕ
  delta : ℚ
  counter : ℕ
  best_score : Option ℚ
  early_stop : Bool
  val_loss_min : Option ℚ
  best_model_state_dict : Option StateDict

/-- `EarlyStopping.__init__` (lines 149-159). -/
def EarlyStopping.init (patience : ℕ) (delta : ℚ) : EarlyStopping :=
  { patience := patience, delta := delta, counter := 0, best_score := none,
    early_stop := false, val_loss_min := none, best_model_state_dict := none }

/-- `EarlyStopping.save_checkpoint` (lines 177-181). -/
def EarlyStopping.save_checkpoint (es : EarlyStopping) (val_loss : ℚ)
    (model : StateDict) (st : Store) : EarlyStopping × Store :=
  let p := deepcopyDict st model
  ({ es with best_model_state_dict := some p.1, val_loss_min := some val_loss },
    p.2)

/-- `EarlyStopping.__call__` (lines 161-175). -/
def EarlyStopping.call (es : EarlyStopping) (val_loss : ℚ) (model : StateDict)
    (st : Store) : EarlyStopping × Store :=
  let score := -val_loss
  match es.best_score with
  | none =>
    EarlyStopping.save_checkpoint { es with best_score := some score }
      val_loss model st
  | some best =>
    if score < best + es.delta then
      let es' := { es with counter := es.counter + 1 }
      if es.patience ≤ es'.counter then ({ es' with early_stop := true }, st)
      else (es', st)
    else
      let p := EarlyStopping.save_checkpoint
        { es with best_score := some score } val_loss model st
      ({ p.1 with counter := 0 }, p.2)

/-- Feeding a sequence of epoch validation losses to the controller. -/
def runCalls (es : EarlyStopping) (model : StateDict) (losses : List ℚ)
    (st : Store) : EarlyStopping × Store :=
  losses.foldl (fun p l => EarlyStopping.call p.1 l model p.2) (es, st)

/-- `EarlyStopping.load_best_weights` (lines 183-190). -/
def EarlyStopping.load_best_weights (es : EarlyStopping) (model : StateDict)
    (st : Store) : Store :=
  match es.best_model_state_dict with
  | some snap => load_state_dict st model snap
  | none => st

lemma call_first (es : EarlyStopping) (l : ℚ) (m : StateDict) (st : Store)
    (h : es.best_score = none) :
    es.call l m st =
      ({ es with
          best_score := some (-l)
          best_model_state_dict := some (deepcopyDict st m).1
          val_loss_min := some l }, (deepcopyDict st m).2) := by
  unfold EarlyStopping.call
  rw [h]
  rfl

lemma call_improve (es : EarlyStopping) (l : ℚ) (m : StateDict) (st : Store)
    (b : ℚ) (h : es.best_score = some b) (h2 : b + es.delta ≤ -l) :
    es.call l m st =
      ({ es with
          best_score := some (-l)
          counter := 0
          best_model_state_dict := some (deepcopyDict st m).1
          val_loss_min := some l }, (deepcopyDict st m).2) := by
  unfold EarlyStopping.call
  rw [h]
  simp only [not_lt.mpr h2, if_false]
  rfl

lemma call_noimprove (es : EarlyStopping) (l : ℚ) (m : StateDict) (st : Store)
    (b : ℚ) (h : es.best_score = some b) (h2 : -l < b + es.delta) :
    (es.call l m st).2 = st ∧
    (es.call l m st).1.counter = es.counter + 1 ∧
    (es.call l m st).1.best_score = es.best_score ∧
    (es.call l m st).1.delta = es.delta ∧
    (es.call l m st).1.patience = es.patience ∧
    (es.call l m st).1.best_model_state_dict = es.best_model_state_dict ∧
    (es.call l m st).1.early_stop
      = (es.early_stop || decide (es.patience ≤ es.counter + 1)) := by
  unfold EarlyStopping.call
  rw [h]
  simp only [if_pos h2]
  split
  · rename_i hp
    simp [h, hp]
  · rename_i hp
    simp [h, hp]

lemma deepcopyDict_fresh (m : StateDict) :
    ∀ (st : Store) (j : ℕ), j ∈ (deepcopyDict st m).1 → st.next ≤ j := by
  induction m with
  | nil => intro st j hj; simp [deepcopyDict] at hj
  | cons i rest ih =>
    intro st j hj
    simp only [deepcopyDict, Store.alloc, List.mem_cons] at hj
    rcases hj with rfl | hj
    · exact le_refl _
    · have := ih _ j hj
      simp only [Store.alloc] at this
      omega

lemma deepcopyDict_next (m : StateDict) :
    ∀ st : Store, st.next ≤ (deepcopyDict st m).2.next := by
  induction m with
  | nil => intro st; exact le_refl _
  | cons i rest ih =>
    intro st
    have := ih (st.alloc (st.mem i)).2
    simp only [deepcopyDict]
    simp only [Store.alloc] at this ⊢
    omega

lemma deepcopyDict_mem_lt (m : StateDict) :
    ∀ (st : Store) (i : ℕ), i < st.next →
      (deepcopyDict st m).2.mem i = st.mem i := by
  induction m with
  | nil => intro st i _; rfl
  | cons a rest ih =>
    intro st i hi
    simp only [deepcopyDict]
    rw [ih _ i (by simp only [Store.alloc]; omega)]
    simp only [Store.alloc]
    rw [if_neg (by omega)]

lemma deepcopyDict_read (m : StateDict) :
    ∀ st : Store, (∀ i ∈ m, i < st.next) →
      readDict (deepcopyDict st m).2 (deepcopyDict st m).1 = readDict st m := by
  induction m with
  | nil => intro st _; rfl
  | cons i rest ih =>
    intro st hm
    have hnext : (st.alloc (st.mem i)).2.next = st.next + 1 := rfl
    simp only [deepcopyDict, readDict, List.map_cons]
    congr 1
    · show (deepcopyDict (st.alloc (st.mem i)).2 rest).2.mem st.next = st.mem i
      rw [deepcopyDict_mem_lt rest _ st.next (by rw [hnext]; omega)]
      show (if st.next = st.next then st.mem i else st.mem st.next) = st.mem i
      rw [if_pos rfl]
    · have h1 : readDict (deepcopyDict (st.alloc (st.mem i)).2 rest).2
            (deepcopyDict (st.alloc (st.mem i)).2 rest).1
          = readDict (st.alloc (st.mem i)).2 rest := by
        apply ih
        intro j hj
        have := hm j (List.mem_cons_of_mem i hj)
        rw [hnext]
        omega
      have h2 : readDict (st.alloc (st.mem i)).2 rest = readDict st rest := by
        apply List.map_congr_left
        intro j hj
        have hjlt := hm j (List.mem_cons_of_mem i hj)
        show (if j = st.next then st.mem i else st.mem j) = st.mem j
        rw [if_neg (by omega)]
      simp only [readDict] at h1 h2
      rw [h1, h2]

lemma writeList_read (ws : List (ℕ × ℚ)) :
    ∀ (st : Store) (d : StateDict), (∀ w ∈ ws, ∀ j ∈ d, w.1 ≠ j) →
      readDict (writeList st ws) d = readDict st d := by
  induction ws with
  | nil => intro st d _; rfl
  | cons w ws ih =>
    intro st d hw
    have step : readDict (st.write w.1 w.2) d = readDict st d := by
      unfold readDict
      apply List.map_congr_left
      intro j hj
      simp only [Store.write]
      rw [if_neg (fun hji => hw w (List.mem_cons_self w ws) j hj hji.symm)]
    calc readDict (writeList st (w :: ws)) d
        = readDict (writeList (st.write w.1 w.2) ws) d := rfl
      _ = readDict (st.write w.1 w.2) d :=
          ih _ d (fun x hx => hw x (List.mem_cons_of_mem w hx))
      _ = readDict st d := step

lemma store_eq (a b : Store) (h1 : a.next = b.next)
    (h2 : ∀ j, a.mem j = b.mem j) : a = b := by
  cases a
  cases b
  simp only [Store.mk.injEq]
  exact ⟨h1, funext h2⟩

lemma write_self (s : Store) (i : ℕ) : s.write i (s.mem i) = s := by
  apply store_eq
  · rfl
  · intro j
    simp only [Store.write]
    split
    · rename_i hj; rw [hj]
    · rfl

lemma load_preserve (model : StateDict) :
    ∀ (snap : StateDict) (st : Store) (k : ℕ), k ∉ model →
      (load_state_dict st model snap).mem k = st.mem k := by
  induction model with
  | nil => intro snap st k _; rfl
  | cons i m ih =>
    intro snap st k hk
    cases snap with
    | nil => rfl
    | cons j s =>
      have hki : k ≠ i := fun h => hk (h ▸ List.mem_cons_self i m)
      have hkm : k ∉ m := fun h => hk (List.mem_cons_of_mem i h)
      calc (load_state_dict st (i :: m) (j :: s)).mem k
          = (load_state_dict (st.write i (st.mem j)) m s).mem k := rfl
        _ = (st.write i (st.mem j)).mem k := ih s _ k hkm
        _ = st.mem k := by simp only [Store.write]; rw [if_neg hki]

lemma load_reads (model : StateDict) :
    ∀ (snap : StateDict) (st : Store), model.Nodup →
      (∀ i ∈ model, ∀ j ∈ snap, i ≠ j) → model.length = snap.length →
      readDict (load_state_dict st model snap) model = readDict st snap := by
  induction model with
  | nil =>
    intro snap st _ _ hlen
    rw [(List.eq_nil_of_length_eq_zero hlen.symm : snap = [])]
    rfl
  | cons i m ih =>
    intro snap st hnd hdisj hlen
    cases snap with
    | nil => simp at hlen
    | cons j s =>
      have hload : load_state_dict st (i :: m) (j :: s)
          = load_state_dict (st.write i (st.mem j)) m s := rfl
      have hnotm : i ∉ m := (List.nodup_cons.mp hnd).1
      unfold readDict
      simp only [List.map_cons, hload]
      congr 1
      · rw [load_preserve m s _ i hnotm]
        simp [Store.write]
      · have h1 : readDict (load_state_dict (st.write i (st.mem j)) m s) m
            = readDict (st.write i (st.mem j)) s := by
          apply ih s _ (List.nodup_cons.mp hnd).2
          · intro a ha b hb
            exact hdisj a (List.mem_cons_of_mem i ha) b (List.mem_cons_of_mem j hb)
          · simpa using hlen
        have h2 : readDict (st.write i (st.mem j)) s = readDict st s := by
          unfold readDict
          apply List.map_congr_left
          intro b hb
          simp only [Store.write]
          rw [if_neg (fun hbi => (hdisj i (List.mem_cons_self i m) b
            (List.mem_cons_of_mem j hb)) hbi.symm)]
        unfold readDict at h1 h2
        rw [h1, h2]

lemma load_point (model : StateDict) :
    ∀ (snap : StateDict) (st : Store), model.Nodup →
      (∀ i ∈ model, ∀ j ∈ snap, i ≠ j) →
      ∀ q ∈ model.zip snap,
        (load_state_dict st model snap).mem q.1 = st.mem q.2 := by
  induction model with
  | nil => intro snap st _ _ q hq; simp at hq
  | cons i m ih =>
    intro snap st hnd hdisj q hq
    cases snap with
    | nil => simp at hq
    | cons j s =>
      have hload : load_state_dict st (i :: m) (j :: s)
          = load_state_dict (st.write i (st.mem j)) m s := rfl
      rcases List.mem_cons.mp hq with rfl | hq'
      · rw [hload, load_preserve m s _ i (List.nodup_cons.mp hnd).1]
        simp [Store.write]
      · rw [hload, ih s _ (List.nodup_cons.mp hnd).2
          (fun a ha b hb => hdisj a (List.mem_cons_of_mem i ha) b
            (List.mem_cons_of_mem j hb)) q hq']
        have hq2 : q.2 ∈ s := (List.of_mem_zip hq').2
        simp only [Store.write]
        rw [if_neg (fun h => (hdisj i (List.mem_cons_self i m) q.2
          (List.mem_cons_of_mem j hq2)) h.symm)]

lemma load_noop (model : StateDict) :
    ∀ (snap : StateDict) (st : Store),
      (∀ q ∈ model.zip snap, st.mem q.1 = st.mem q.2) →
      load_state_dict st model snap = st := by
  induction model with
  | nil => intro snap st _; rfl
  | cons i m ih =>
    intro snap st hq
    cases snap with
    | nil => rfl
    | cons j s =>
      have hij : st.mem i = st.mem j :=
        hq (i, j) (List.mem_cons_self _ _)
      have hwr : st.write i (st.mem j) = st := by
        rw [← hij]; exact write_self st i
      calc load_state_dict st (i :: m) (j :: s)
          = load_state_dict (st.write i (st.mem j)) m s := rfl
        _ = load_state_dict st m s := by rw [hwr]
        _ = st := ih s st (fun q hmem => hq q (List.mem_cons_of_mem _ hmem))

lemma runCalls_cons (es : EarlyStopping) (m : StateDict) (l : ℚ)
    (ls : List ℚ) (st : Store) :
    runCalls es m (l :: ls) st
      = runCalls (es.call l m st).1 m ls (es.call l m st).2 := rfl

/-- Folding a streak of non-improving losses: the counter advances once
per call, the best score and snapshot are untouched, and the stop flag
is raised exactly when the counter reaches `patience`. -/
lemma runCalls_noimprove (xs : List ℚ) :
    ∀ (es : EarlyStopping) (m : StateDict) (st : Store) (b : ℚ),
      es.best_score = some b → (∀ x ∈ xs, -x < b + es.delta) →
      (runCalls es m xs st).2 = st ∧
      (runCalls es m xs st).1.counter = es.counter + xs.length ∧
      (runCalls es m xs st).1.best_score = some b ∧
      (runCalls es m xs st).1.patience = es.patience ∧
      (runCalls es m xs st).1.delta = es.delta ∧
      (runCalls es m xs st).1.best_model_state_dict = es.best_model_state_dict ∧
      (runCalls es m xs st).1.early_stop
        = (es.early_stop ||
            (decide (1 ≤ xs.length) &&
              decide (es.patience ≤ es.counter + xs.length))) := by
  induction xs with
  | nil =>
    intro es m st b hb _
    simp [runCalls, hb]
  | cons x xs ih =>
    intro es m st b hb hni
    have hx : -x < b + es.delta := hni x (List.mem_cons_self x xs)
    obtain ⟨c2, cc, cbs, cd, cp, csnap, ces⟩ :=
      call_noimprove es x m st b hb hx
    rw [runCalls_cons, c2]
    obtain ⟨r2, rc, rbs, rp, rd, rsnap, res⟩ :=
      ih (es.call x m st).1 m st b (by rw [cbs, hb])
        (fun y hy => by rw [cd]; exact hni y (List.mem_cons_of_mem x hy))
    refine ⟨r2, ?_, rbs, by rw [rp, cp], by rw [rd, cd], by rw [rsnap, csnap], ?_⟩
    · rw [rc, cc, List.length_cons]
      omega
    · rw [res, ces, cp, cc, List.length_cons]
      by_cases h1 : es.patience ≤ es.counter + 1
      · have h2 : es.patience ≤ es.counter + (xs.length + 1) := by omega
        have h3 : es.patience ≤ es.counter + 1 + xs.length := by omega
        simp [h1, h2, h3]
      · by_cases h4 : 1 ≤ xs.length
        · have he : es.counter + 1 + xs.length = es.counter + (xs.length + 1) := by
            omega
          rw [he]
          simp [h1, h4]
        · have hx0 : xs.length = 0 := by omega
          simp [h1, hx0]

/-- Folding a strictly improving run: the stop flag is never raised. -/
lemma runCalls_improving (ls : List ℚ) :
    ∀ (es : EarlyStopping) (m : StateDict) (st : Store) (b : ℚ),
      es.best_score = some b → es.early_stop = false → es.delta = 0 →
      List.Chain' (fun p q => p > q) ls →
      (∀ y : ℚ, ls.head? = some y → b < -y) →
      (runCalls es m ls st).1.early_stop = false := by
  induction ls with
  | nil =>
    intro es m st b _ hstop _ _ _
    simpa [runCalls] using hstop
  | cons y ys ih =>
    intro es m st b hb hstop hd hchain hhead
    have hby : b < -y := hhead y rfl
    have himp : b + es.delta ≤ -y := by rw [hd]; linarith
    rw [runCalls_cons, call_improve es y m st b hb himp]
    apply ih _ m _ (-y)
    · rfl
    · simpa using hstop
    · simpa using hd
    · exact (List.chain'_cons'.mp hchain).2
    · intro z hz
      have := (List.chain'_cons'.mp hchain).1 z hz
      simp only at this ⊢
      linarith

/-- C6: with `delta = 0`: (a) a strictly decreasing validation-loss
sequence never raises `early_stop`; (b) after an initial observation
`l0`, a run of `patience + 1` non-improving losses increments the
counter once per call and raises `early_stop` exactly at the
`patience`-th repeat (`early_stop` after `k` repeats is
`decide (patience ≤ k)`); (c) a sufficiently improving call updates the
best score, re-snapshots the weights and resets the counter to zero. -/
theorem early_stopping_spec :
    (∀ (patience : ℕ) (m : StateDict) (st : Store) (losses : List ℚ),
      List.Chain' (fun p q => p > q) losses →
      (runCalls (EarlyStopping.init patience 0) m losses st).1.early_stop
        = false) ∧
    (∀ (patience : ℕ) (m : StateDict) (st : Store) (l0 : ℚ) (xs : List ℚ)
        (k : ℕ),
      1 ≤ patience → (∀ x ∈ xs, -x < -l0) → xs.length = patience + 1 →
      k ≤ patience + 1 →
      (runCalls (EarlyStopping.init patience 0) m (l0 :: xs.take k) st).1.counter
          = k ∧
      (runCalls (EarlyStopping.init patience 0) m
          (l0 :: xs.take k) st).1.early_stop = decide (patience ≤ k)) ∧
    (∀ (es : EarlyStopping) (l : ℚ) (m : StateDict) (st : Store) (b : ℚ),
      es.best_score = some b → b + es.delta ≤ -l →
      (es.call l m st).1.best_score = some (-l) ∧
      (es.call l m st).1.best_model_state_dict = some (deepcopyDict st m).1 ∧
      (es.call l m st).1.counter = 0) := by
  refine ⟨?_, ?_, ?_⟩
  · intro p m st losses hch
    cases losses with
    | nil => rfl
    | cons l0 rest =>
      rw [runCalls_cons, call_first _ _ _ _ rfl]
      apply runCalls_improving rest _ m _ (-l0) rfl rfl rfl
        (List.chain'_cons'.mp hch).2
      intro z hz
      have := (List.chain'_cons'.mp hch).1 z hz
      simp only [gt_iff_lt] at this
      linarith
  · intro p m st l0 xs k hp hni hlen hk
    rw [runCalls_cons, call_first _ _ _ _ rfl]
    obtain ⟨r2, rc, rbs, rp, rd, rsnap, res⟩ :=
      runCalls_noimprove (xs.take k)
        ({ EarlyStopping.init p 0 with
            best_score := some (-l0)
            best_model_state_dict := some (deepcopyDict st m).1
            val_loss_min := some l0 }) m (deepcopyDict st m).2 (-l0) rfl
        (fun x hx => by
          have := hni x (List.take_subset k xs hx)
          show -x < -l0 + (0 : ℚ)
          linarith)
    have hlen2 : (xs.take k).length = k := by
      rw [List.length_take]
      omega
    constructor
    · rw [rc, hlen2]
      show 0 + k = k
      omega
    · rw [res, hlen2]
      show (false || (decide (1 ≤ k) && decide (p ≤ 0 + k))) = decide (p ≤ k)
      by_cases hpk : p ≤ k
      · have h1k : 1 ≤ k := le_trans hp hpk
        have h0k : p ≤ 0 + k := by omega
        simp [hpk, h1k, h0k]
      · have h0k : ¬(p ≤ 0 + k) := by omega
        simp [hpk, h0k]
  · intro es l m st b hb h2
    rw [call_improve es l m st b hb h2]
    exact ⟨rfl, rfl, rfl⟩

/-- Closed witness for C6: patience 2, delta 0; a decreasing run
[5, 4, 3] never stops; an initial loss 6 followed by two of three
non-improving losses [7, 8, 9] yields counter 2 and stops exactly there;
an improving call resets the counter and re-snapshots. -/
theorem early_stopping_spec_witness :
    ((runCalls (EarlyStopping.init 2 0) [0] [5, 4, 3]
        ⟨1, fun _ => 0⟩).1.early_stop = false) ∧
    ((runCalls (EarlyStopping.init 2 0) [0]
        ((6 : ℚ) :: ([7, 8, 9] : List ℚ).take 2) ⟨1, fun _ => 0⟩).1.counter
      = 2) ∧
    ((runCalls (EarlyStopping.init 2 0) [0]
        ((6 : ℚ) :: ([7, 8, 9] : List ℚ).take 2)
        ⟨1, fun _ => 0⟩).1.early_stop = decide ((2 : ℕ) ≤ 2)) ∧
    ((EarlyStopping.call ⟨2, 0, 1, some (-5), false, some 5, none⟩ 4 [0]
        ⟨1, fun _ => 0⟩).1.best_score = some (-4) ∧
      (EarlyStopping.call ⟨2, 0, 1, some (-5), false, some 5, none⟩ 4 [0]
        ⟨1, fun _ => 0⟩).1.counter = 0) :=
  ⟨early_stopping_spec.1 2 [0] ⟨1, fun _ => 0⟩ [5, 4, 3]
      (List.chain'_cons.mpr ⟨by norm_num, List.chain'_cons.mpr
        ⟨by norm_num, List.chain'_singleton _⟩⟩),
   (early_stopping_spec.2.1 2 [0] ⟨1, fun _ => 0⟩ 6 [7, 8, 9] 2 (by decide)
      (by decide) (by decide) (by decide)).1,
   (early_stopping_spec.2.1 2 [0] ⟨1, fun _ => 0⟩ 6 [7, 8, 9] 2 (by decide)
      (by decide) (by decide) (by decide)).2,
   (early_stopping_spec.2.2 ⟨2, 0, 1, some (-5), false, some 5, none⟩ 4 [0]
      ⟨1, fun _ => 0⟩ (-5) rfl (by norm_num)).1,
   (early_stopping_spec.2.2 ⟨2, 0, 1, some (-5), false, some 5, none⟩ 4 [0]
      ⟨1, fun _ => 0⟩ (-5) rfl (by norm_num)).2.2⟩

/-- C10: the STOPPED state is absorbing: once `early_stop` is true, no
further call — including a strictly improving one, which still updates
the best score and re-snapshots the weights — ever resets it. -/
theorem early_stop_absorbing :
    ∀ (es : EarlyStopping) (l : ℚ) (m : StateDict) (st : Store),
      es.early_stop = true →
      (es.call l m st).1.early_stop = true ∧
      (∀ b : ℚ, es.best_score = some b → b + es.delta ≤ -l →
        (es.call l m st).1.best_score = some (-l) ∧
        (es.call l m st).1.best_model_state_dict
          = some (deepcopyDict st m).1) := by
  intro es l m st hstop
  constructor
  · cases hbs : es.best_score with
    | none =>
      rw [call_first es l m st hbs]
      exact hstop
    | some b =>
      by_cases himp : -l < b + es.delta
      · obtain ⟨_, _, _, _, _, _, ces⟩ := call_noimprove es l m st b hbs himp
        rw [ces, hstop]
        simp
      · rw [call_improve es l m st b hbs (by linarith)]
        exact hstop
  · intro b hbs himp
    rw [call_improve es l m st b hbs himp]
    exact ⟨rfl, rfl⟩

/-- Closed witness for C10: a stopped controller fed an improving loss
stays stopped while still re-snapshotting. -/
theorem early_stop_absorbing_witness :
    (EarlyStopping.call ⟨2, 0, 2, some (-5), true, some 5, none⟩ 4 [0]
      ⟨1, fun _ => 0⟩).1.early_stop = true ∧
    (EarlyStopping.call ⟨2, 0, 2, some (-5), true, some 5, none⟩ 4 [0]
      ⟨1, fun _ => 0⟩).1.best_score = some (-4) :=
  ⟨(early_stop_absorbing ⟨2, 0, 2, some (-5), true, some 5, none⟩ 4 [0]
      ⟨1, fun _ => 0⟩ rfl).1,
   ((early_stop_absorbing ⟨2, 0, 2, some (-5), true, some 5, none⟩ 4 [0]
      ⟨1, fun _ => 0⟩ rfl).2 (-5) rfl (by norm_num)).1⟩

/-- C8: the first observation always becomes the best score and
snapshots the weights; the snapshot is a deep, independent copy: it
reads back the model's values at snapshot time, and any sequence of
subsequent writes to the live model's cells leaves the snapshot's
values unchanged. -/
theorem first_call_snapshot_independent :
    ∀ (es : EarlyStopping) (l : ℚ) (m : StateDict) (st : Store),
      es.best_score = none → (∀ i ∈ m, i < st.next) →
      (es.call l m st).1.best_score = some (-l) ∧
      (es.call l m st).1.best_model_state_dict = some (deepcopyDict st m).1 ∧
      (es.call l m st).2 = (deepcopyDict st m).2 ∧
      readDict (deepcopyDict st m).2 (deepcopyDict st m).1 = readDict st m ∧
      (∀ ws : List (ℕ × ℚ), (∀ w ∈ ws, w.1 ∈ m) →
        readDict (writeList (es.call l m st).2 ws) (deepcopyDict st m).1
          = readDict st m) := by
  intro es l m st hbs hm
  rw [call_first es l m st hbs]
  refine ⟨rfl, rfl, rfl, deepcopyDict_read m st hm, ?_⟩
  intro ws hws
  have hdisj : ∀ w ∈ ws, ∀ j ∈ (deepcopyDict st m).1, w.1 ≠ j := by
    intro w hw j hj heq
    have h1 := hm w.1 (hws w hw)
    have h2 := deepcopyDict_fresh m st j hj
    omega
  show readDict (writeList (deepcopyDict st m).2 ws) (deepcopyDict st m).1
    = readDict st m
  rw [writeList_read ws _ _ hdisj]
  exact deepcopyDict_read m st hm

/-- Closed witness for C8: two weight cells are snapshotted, then both
live cells are overwritten; the snapshot still reads the original
values. -/
theorem first_call_snapshot_independent_witness :
    readDict
      (writeList ((EarlyStopping.init 3 0).call 5 [0, 1]
          ⟨2, fun j => (j : ℚ)⟩).2 [(0, 99), (1, 77)])
      (deepcopyDict ⟨2, fun j => (j : ℚ)⟩ [0, 1]).1
    = readDict ⟨2, fun j => (j : ℚ)⟩ [0, 1] :=
  ((first_call_snapshot_independent (EarlyStopping.init 3 0) 5 [0, 1]
      ⟨2, fun j => (j : ℚ)⟩ rfl (by decide)).2.2.2.2 [(0, 99), (1, 77)]
    (by decide))

/-- C9: `load_best_weights` with no snapshot is a non-fatal no-op on the
store (and touches neither the model's cell list nor the controller);
with a snapshot it loads exactly the snapshot's values into the model's
cells, and it is idempotent. -/
theorem load_best_weights_spec :
    (∀ (es : EarlyStopping) (m : StateDict) (st : Store),
      es.best_model_state_dict = none → es.load_best_weights m st = st) ∧
    (∀ (es : EarlyStopping) (m snap : StateDict) (st : Store),
      es.best_model_state_dict = some snap → m.Nodup →
      (∀ i ∈ m, ∀ j ∈ snap, i ≠ j) → m.length = snap.length →
      readDict (es.load_best_weights m st) m = readDict st snap) ∧
    (∀ (es : EarlyStopping) (m snap : StateDict) (st : Store),
      es.best_model_state_dict = some snap → m.Nodup →
      (∀ i ∈ m, ∀ j ∈ snap, i ≠ j) →
      es.load_best_weights m (es.load_best_weights m st)
        = es.load_best_weights m st) := by
  refine ⟨?_, ?_, ?_⟩
  · intro es m st h
    unfold EarlyStopping.load_best_weights
    rw [h]
  · intro es m snap st h hnd hdisj hlen
    unfold EarlyStopping.load_best_weights
    rw [h]
    exact load_reads m snap st hnd hdisj hlen
  · intro es m snap st h hnd hdisj
    unfold EarlyStopping.load_best_weights
    rw [h]
    apply load_noop
    intro q hq
    have h1 : (load_state_dict st m snap).mem q.1 = st.mem q.2 :=
      load_point m snap st hnd hdisj q hq
    have hq2 : q.2 ∈ snap := (List.of_mem_zip hq).2
    have hq2m : q.2 ∉ m := fun hmem => (hdisj q.2 hmem q.2 hq2) rfl
    have h2 : (load_state_dict st m snap).mem q.2 = st.mem q.2 :=
      load_preserve m snap st q.2 hq2m
    rw [h1, h2]

/-- Closed witness for C9: loading with no snapshot leaves the store
unchanged; loading a singleton snapshot copies its value into the model
cell and a second load changes nothing. -/
theorem load_best_weights_spec_witness :
    ((EarlyStopping.init 2 0).load_best_weights [0] ⟨3, fun j => (j : ℚ)⟩
      = ⟨3, fun j => (j : ℚ)⟩) ∧
    readDict ((⟨2, 0, 0, some (-5), false, some 5, some [2]⟩ :
        EarlyStopping).load_best_weights [0] ⟨3, fun j => (j : ℚ)⟩) [0]
      = readDict ⟨3, fun j => (j : ℚ)⟩ [2] ∧
    (⟨2, 0, 0, some (-5), false, some 5, some [2]⟩ :
        EarlyStopping).load_best_weights [0]
      ((⟨2, 0, 0, some (-5), false, some 5, some [2]⟩ :
        EarlyStopping).load_best_weights [0] ⟨3, fun j => (j : ℚ)⟩)
      = (⟨2, 0, 0, some (-5), false, some 5, some [2]⟩ :
        EarlyStopping).load_best_weights [0] ⟨3, fun j => (j : ℚ)⟩ :=
  ⟨load_best_weights_spec.1 (EarlyStopping.init 2 0) [0]
      ⟨3, fun j => (j : ℚ)⟩ rfl,
   load_best_weights_spec.2.1 ⟨2, 0, 0, some (-5), false, some 5, some [2]⟩
      [0] [2] ⟨3, fun j => (j : ℚ)⟩ rfl (by decide) (by decide) rfl,
   load_best_weights_spec.2.2 ⟨2, 0, 0, some (-5), false, some 5, some [2]⟩
      [0] [2] ⟨3, fun j => (j : ℚ)⟩ rfl (by decide) (by decide)⟩

/-! ## Learnable adaptive masking
(`LearnableAdaptiveMasking.forward`, train_lafm_net.py lines 33-54)

Tensors of shape (C, H, W) are modelled as functions
`Fin C → Fin H → Fin W → ℝ` (the batch dimension is a pointwise
quantifier); `nn.AdaptiveAvgPool2d(1)` + `Flatten` is `globalAvgPool`,
and the `Linear(channels, channels)` + `Sigmoid` head is `global_fc`. -/

/-- `torch.sigmoid`. -/
noncomputable def sigmoid (x : ℝ) : ℝ := 1 / (1 + Real.exp (-x))

/-- The learnable parameters of `LearnableAdaptiveMasking` (lines
37-47): scalar temperature, per-channel bias and scale, and the weights
of the `Linear(channels, channels)` gating head. -/
structure MaskerParams (C : ℕ) where
  temperature : ℝ
  bias : Fin C → ℝ
  channel_scale : Fin C → ℝ
  fcWeight : Fin C → Fin C → ℝ
  fcBias : Fin C → ℝ

/-- `nn.AdaptiveAvgPool2d(1)` followed by `Flatten`: the per-channel
spatial mean. -/
noncomputable def globalAvgPool {C H W : ℕ} (x : Fin C → Fin H → Fin W → ℝ)
    (c : Fin C) : ℝ :=
  (∑ h : Fin H, ∑ w : Fin W, x c h w) / (H * W)

/-- The `global_fc` head (lines 42-47): linear layer on the pooled
summary, then a sigmoid. -/
noncomputable def global_fc {C H W : ℕ} (p : MaskerParams C)
    (x : Fin C → Fin H → Fin W → ℝ) (c : Fin C) : ℝ :=
  sigmoid ((∑ c' : Fin C, p.fcWeight c c' * globalAvgPool x c') + p.fcBias c)

/-- `LearnableAdaptiveMasking.forward` (lines 49-54): the local
temperature-scaled sigmoid gate times the spatially-broadcast global
gate. -/
noncomputable def LearnableAdaptiveMasking.forward {C H W : ℕ}
    (p : MaskerParams C) (x : Fin C → Fin H → Fin W → ℝ) :
    Fin C → Fin H → Fin W → ℝ :=
  fun c h w =>
    let scaled := (x c h w * p.channel_scale c + p.bias c) / p.temperature
    let base_mask := sigmoid scaled
    let g := global_fc p x c
    base_mask * g

lemma sigmoid_pos (x : ℝ) : 0 < sigmoid x := by
  unfold sigmoid
  have := Real.exp_pos (-x)
  positivity

lemma sigmoid_lt_one (x : ℝ) : sigmoid x < 1 := by
  unfold sigmoid
  rw [div_lt_one (by positivity)]
  linarith [Real.exp_pos (-x)]

/-- C3: the forward pass of `LearnableAdaptiveMasking` equals
`sigmoid((x * channel_scale + bias) / temperature)` times the
spatially-broadcast `sigmoid(FC(GlobalAvgPool(x)))`, and every element
of the mask lies strictly in (0, 1). -/
theorem adaptive_masking_forward_spec {C H W : ℕ} (p : MaskerParams C)
    (x : Fin C → Fin H → Fin W → ℝ) (c : Fin C) (h : Fin H) (w : Fin W) :
    LearnableAdaptiveMasking.forward p x c h w
      = sigmoid ((x c h w * p.channel_scale c + p.bias c) / p.temperature)
        * sigmoid ((∑ c' : Fin C, p.fcWeight c c' * globalAvgPool x c')
            + p.fcBias c) ∧
    0 < LearnableAdaptiveMasking.forward p x c h w ∧
    LearnableAdaptiveMasking.forward p x c h w < 1 := by
  refine ⟨rfl, ?_, ?_⟩
  · exact mul_pos (sigmoid_pos _) (sigmoid_pos _)
  · have h1 := sigmoid_lt_one
      ((x c h w * p.channel_scale c + p.bias c) / p.temperature)
    have h2 := sigmoid_lt_one ((∑ c' : Fin C, p.fcWeight c c' * globalAvgPool x c')
      + p.fcBias c)
    have p1 := sigmoid_pos
      ((x c h w * p.channel_scale c + p.bias c) / p.temperature)
    have p2 := sigmoid_pos ((∑ c' : Fin C, p.fcWeight c c' * globalAvgPool x c')
      + p.fcBias c)
    have := mul_lt_mul'' h1 h2 (le_of_lt p1) (le_of_lt p2)
    simpa using this

/-! ## Balanced focal loss (`BalancedFocalLoss`, train_lafm_net.py
lines 419-430)

`F.cross_entropy(inputs, targets, reduction='none')` computes, per
sample, `log(sum_j exp(z_j)) - z_target`; `pt = exp(-ce)`;
`alpha_t` is the constant `alpha`; the loss is the batch mean of
`alpha_t * (1 - pt) ** gamma * ce` (the float `**` is a real power). -/

/-- Per-sample `F.cross_entropy` with `reduction='none'`. -/
noncomputable def cross_entropy {K : ℕ} (logits : Fin K → ℝ)
    (target : Fin K) : ℝ :=
  Real.log (∑ j : Fin K, Real.exp (logits j)) - logits target

/-- `BalancedFocalLoss.forward` (lines 426-430). -/
noncomputable def BalancedFocalLoss.forward {n K : ℕ} (alpha gamma : ℝ)
    (inputs : Fin n → Fin K → ℝ) (targets : Fin n → Fin K) : ℝ :=
  (∑ i : Fin n,
    alpha * (1 - Real.exp (-(cross_entropy (inputs i) (targets i)))) ^ gamma
      * cross_entropy (inputs i) (targets i)) / n

/-- C5: with `gamma = 0` and `alpha = 1` the focal loss reduces exactly
to the batch mean of the per-sample cross-entropy losses. -/
theorem balanced_focal_loss_gamma0 {n K : ℕ} (inputs : Fin n → Fin K → ℝ)
    (targets : Fin n → Fin K) :
    BalancedFocalLoss.forward 1 0 inputs targets
      = (∑ i : Fin n, cross_entropy (inputs i) (targets i)) / n := by
  unfold BalancedFocalLoss.forward
  congr 1
  apply Finset.sum_congr rfl
  intro i _
  rw [Real.rpow_zero, one_mul, one_mul]

/-! ## Phase-2 gradient flow to the adaptive masker
(`feature_masking_enhancement`, train_lafm_net.py lines 390-397, and
`train_classifier_end_to_end`, lines 479-546)

The Phase-2 optimizer (lines 485-488) includes `adaptive_masker`'s
parameters, but `feature_masking_enhancement` computes the mask inside
`with torch.no_grad()` (lines 393-397) and in eval mode, so the
enhanced image is detached from the gate's parameters.
Differentiation of the per-batch loss with respect to any single gate
parameter (the temperature, a bias entry, a channel-scale entry, or a
`global_fc` weight) is modelled forward-mode by dual numbers: `val` is
the computed value and `grad` the derivative with respect to the chosen
parameter; `torch.no_grad()` detaches (zeroes) the tracked derivative
of everything produced inside the block. -/

/-- A scalar together with its tracked derivative with respect to one
chosen parameter of the adaptive masker. -/
structure Dual where
  val : ℚ
  grad : ℚ
deriving DecidableEq

/-- Product rule. -/
def Dual.mul (a b : Dual) : Dual :=
  ⟨a.val * b.val, a.grad * b.val + a.val * b.grad⟩

/-- A quantity that does not depend on the chosen gate parameter. -/
def Dual.const (v : ℚ) : Dual := ⟨v, 0⟩

/-- `with torch.no_grad()`: the produced tensor tracks no gradient. -/
def noGrad (a : Dual) : Dual := ⟨a.val, 0⟩

/-- `torch.clamp(x, 0.0, 1.0)` with its (sub)derivative. -/
def clamp01 (a : Dual) : Dual :=
  if a.val < 0 then ⟨0, 0⟩ else if 1 < a.val then ⟨1, 0⟩ else a

/-- `feature_masking_enhancement` (lines 390-397) at one scalar
position: unet features, mask, elementwise product, clamp — the whole
computation inside `torch.no_grad()`. -/
def feature_masking_enhancement (original_imgs : Dual)
    (frozen_unet adaptive_masker : Dual → Dual) : Dual :=
  let feats := frozen_unet original_imgs
  let mask := adaptive_masker feats
  let enhanced := Dual.mul original_imgs mask
  noGrad (clamp01 enhanced)

/-- The Phase-2 per-batch loss pipeline (lines 501-503): enhancement,
then classifier, then criterion (the constant labels are folded into
the criterion). -/
def phase2_loss (classifier crit frozen_unet adaptive_masker : Dual → Dual)
    (img : Dual) : Dual :=
  crit (classifier
    (feature_masking_enhancement img frozen_unet adaptive_masker))

/-- A network stage whose own parameters do not depend on the chosen
gate parameter: on an input tracking no gradient its output tracks no
gradient (true of the classifier and of the loss, whose parameters are
disjoint from the gate's). -/
def constGrad (f : Dual → Dual) : Prop :=
  ∀ v : ℚ, (f (Dual.const v)).grad = 0

lemma constGrad_apply {f : Dual → Dual} (hf : constGrad f) (v : ℚ) :
    f (Dual.const v) = Dual.const ((f (Dual.const v)).val) := by
  have hg := hf v
  cases hfv : f (Dual.const v) with
  | mk a b =>
    rw [hfv] at hg
    simp only at hg
    simp only [Dual.const, hg]

/-- C1 (divergence witness): because the enhancement is computed under
`torch.no_grad()`, the Phase-2 loss has zero derivative with respect to
every adaptive-masker parameter, for every masker, frozen unet,
classifier and criterion and every input; `loss.backward()` therefore
populates no gradient for the gate, and `opt.step()` leaves the gate's
parameters (temperature, bias, channel_scale, global_fc) unchanged. -/
theorem phase2_gate_grad_zero
    (classifier crit frozen_unet adaptive_masker : Dual → Dual)
    (hclf : constGrad classifier) (hcrit : constGrad crit) (x : ℚ) :
    (phase2_loss classifier crit frozen_unet adaptive_masker
      (Dual.const x)).grad = 0 := by
  unfold phase2_loss
  rw [show feature_masking_enhancement (Dual.const x) frozen_unet
        adaptive_masker
      = Dual.const ((feature_masking_enhancement (Dual.const x) frozen_unet
          adaptive_masker).val) from rfl,
    constGrad_apply hclf]
  exact hcrit _

/-- Closed witness for C1: a concrete masker whose output tracks a
nonzero derivative in the gate parameter, a linear classifier and a
squared loss — yet the end-to-end Phase-2 loss tracks derivative 0. -/
theorem phase2_gate_grad_zero_witness :
    constGrad (fun d => Dual.mul d (Dual.const 3)) ∧
    constGrad (fun d => Dual.mul d d) ∧
    (Dual.mul (Dual.const 2) ⟨5, 1⟩).grad ≠ 0 ∧
    (phase2_loss (fun d => Dual.mul d (Dual.const 3)) (fun d => Dual.mul d d)
      (fun d => d) (fun d => Dual.mul d ⟨5, 1⟩) (Dual.const 2)).grad = 0 :=
  ⟨fun v => by simp [Dual.mul, Dual.const],
   fun v => by simp [Dual.mul, Dual.const],
   by norm_num [Dual.mul, Dual.const],
   phase2_gate_grad_zero (fun d => Dual.mul d (Dual.const 3))
     (fun d => Dual.mul d d) (fun d => d) (fun d => Dual.mul d ⟨5, 1⟩)
     (fun v => by simp [Dual.mul, Dual.const])
     (fun v => by simp [Dual.mul, Dual.const]) 2⟩

/-! ## Correlation filtering (`correlation_filtering`, train_lafm_net.py
lines 192-209)

A dataframe is a list of named columns; numeric columns carry real
data.  `pandas.DataFrame.corr` computes the Pearson correlation
`Σ(x-x̄)(y-ȳ) / sqrt(Σ(x-x̄)² Σ(y-ȳ)²)`; the strict upper triangle
(`k=1`) of the absolute correlation matrix holds, in column `j`, the
entries for pairs `(i, j)` with `i < j` (all other entries are NaN and
compare false), so line 201 drops column `j` iff some `i < j` has
absolute correlation above the threshold.  A zero-variance pair gives
NaN in pandas (never above the threshold); in the real model the same
pair divides by zero, which is 0 in Lean — also never above. -/

/-- Column payload: numeric (real) or non-numeric. -/
inductive ColData where
  | num (xs : List ℝ)
  | strCol (xs : List String)

/-- A named dataframe column. -/
structure DFColumn where
  name : String
  data : ColData

abbrev DataFrame := List DFColumn

def ColData.isNum : ColData → Bool
  | .num _ => true
  | .strCol _ => false

/-- `df.select_dtypes(include=np.number)` (line 194). -/
def select_numeric (df : DataFrame) : DataFrame :=
  df.filter (fun c => c.data.isNum)

def ColData.numData : ColData → List ℝ
  | .num xs => xs
  | .strCol _ => []

noncomputable def lmean (xs : List ℝ) : ℝ := xs.sum / xs.length

/-- Centred cross-product sum `Σ (x - mean xs) (y - mean ys)`. -/
noncomputable def sprod (xs ys : List ℝ) : ℝ :=
  (List.zipWith (fun a b => (a - lmean xs) * (b - lmean ys)) xs ys).sum

/-- Pearson correlation of two columns, as computed by
`pandas.DataFrame.corr`. -/
noncomputable def pearson (xs ys : List ℝ) : ℝ :=
  sprod xs ys / Real.sqrt (sprod xs xs * sprod ys ys)

/-- The numeric data of column `i`. -/
def colAt (numeric : DataFrame) (i : ℕ) : List ℝ :=
  (numeric.getD i ⟨"", ColData.num []⟩).data.numData

/-- `any(upper_tri[column] > threshold)` for column `j` (line 201). -/
noncomputable def dropBool (numeric : DataFrame) (threshold : ℝ) (j : ℕ) :
    Bool :=
  @decide
    (∃ i, i < j ∧
      threshold < |pearson (colAt numeric i) (colAt numeric j)|)
    (Classical.propDecidable _)

/-- The dropped column names (line 201). -/
noncomputable def drop_cols (numeric : DataFrame) (threshold : ℝ) :
    List String :=
  ((List.range numeric.length).filter (dropBool numeric threshold)).map
    (fun j => (numeric.getD j ⟨"", ColData.num []⟩).name)

/-- `correlation_filtering` (lines 192-209): fewer than two numeric
columns returns the dataframe unchanged; otherwise the dropped columns
(if any) are removed from the full dataframe by name. -/
noncomputable def correlation_filtering (df : DataFrame) (threshold : ℝ) :
    DataFrame :=
  if (select_numeric df).length < 2 then df
  else if (drop_cols (select_numeric df) threshold).isEmpty then df
  else df.filter
    (fun c => !((drop_cols (select_numeric df) threshold).contains c.name))

lemma list_sum_range (l : List ℝ) :
    l.sum = ∑ i ∈ Finset.range l.length, l.getD i 0 := by
  induction l with
  | nil => simp
  | cons a t ih =>
    rw [List.sum_cons, List.length_cons, Finset.sum_range_succ', ih]
    simp [add_comm]

lemma sprod_eq_sum (xs ys : List ℝ) :
    sprod xs ys = ∑ i ∈ Finset.range (min xs.length ys.length),
      (xs.getD i 0 - lmean xs) * (ys.getD i 0 - lmean ys) := by
  unfold sprod
  rw [list_sum_range, List.length_zipWith]
  apply Finset.sum_congr rfl
  intro i hi
  have hlt : i < min xs.length ys.length := Finset.mem_range.mp hi
  rw [List.getD_eq_getElem _ _ (by rw [List.length_zipWith]; exact hlt),
    List.getElem_zipWith,
    List.getD_eq_getElem _ _ (by omega), List.getD_eq_getElem _ _ (by omega)]

lemma sprod_self_nonneg (xs : List ℝ) : 0 ≤ sprod xs xs := by
  rw [sprod_eq_sum]
  apply Finset.sum_nonneg
  intro i _
  exact mul_self_nonneg _

lemma sq_sprod_le (xs ys : List ℝ) :
    (sprod xs ys) ^ 2 ≤ sprod xs xs * sprod ys ys := by
  set n := min xs.length ys.length with hn
  have hcs := Finset.sum_mul_sq_le_sq_mul_sq (Finset.range n)
    (fun i => xs.getD i 0 - lmean xs) (fun i => ys.getD i 0 - lmean ys)
  rw [← sprod_eq_sum] at hcs
  have hxs : ∑ i ∈ Finset.range n, (xs.getD i 0 - lmean xs) ^ 2
      ≤ sprod xs xs := by
    rw [sprod_eq_sum, min_self]
    have hsub : Finset.range n ⊆ Finset.range xs.length :=
      Finset.range_subset.mpr (by omega)
    calc ∑ i ∈ Finset.range n, (xs.getD i 0 - lmean xs) ^ 2
        ≤ ∑ i ∈ Finset.range xs.length, (xs.getD i 0 - lmean xs) ^ 2 :=
          Finset.sum_le_sum_of_subset_of_nonneg hsub
            (fun i _ _ => sq_nonneg _)
      _ = ∑ i ∈ Finset.range xs.length,
            (xs.getD i 0 - lmean xs) * (xs.getD i 0 - lmean xs) := by
          apply Finset.sum_congr rfl
          intro i _
          ring
  have hys : ∑ i ∈ Finset.range n, (ys.getD i 0 - lmean ys) ^ 2
      ≤ sprod ys ys := by
    rw [sprod_eq_sum, min_self]
    have hsub : Finset.range n ⊆ Finset.range ys.length :=
      Finset.range_subset.mpr (by omega)
    calc ∑ i ∈ Finset.range n, (ys.getD i 0 - lmean ys) ^ 2
        ≤ ∑ i ∈ Finset.range ys.length, (ys.getD i 0 - lmean ys) ^ 2 :=
          Finset.sum_le_sum_of_subset_of_nonneg hsub
            (fun i _ _ => sq_nonneg _)
      _ = ∑ i ∈ Finset.range ys.length,
            (ys.getD i 0 - lmean ys) * (ys.getD i 0 - lmean ys) := by
          apply Finset.sum_congr rfl
          intro i _
          ring
  calc (sprod xs ys) ^ 2
      ≤ (∑ i ∈ Finset.range n, (xs.getD i 0 - lmean xs) ^ 2)
        * (∑ i ∈ Finset.range n, (ys.getD i 0 - lmean ys) ^ 2) := hcs
    _ ≤ sprod xs xs * sprod ys ys := by
        apply mul_le_mul hxs hys
          (Finset.sum_nonneg (fun i _ => sq_nonneg _))
          (le_trans (Finset.sum_nonneg (fun i _ => sq_nonneg _)) hxs)

lemma abs_pearson_le_one (xs ys : List ℝ) : |pearson xs ys| ≤ 1 := by
  unfold pearson
  rcases eq_or_lt_of_le (Real.sqrt_nonneg (sprod xs xs * sprod ys ys)) with
    hz | hpos
  · rw [← hz, div_zero, abs_zero]
    norm_num
  · rw [abs_div, abs_of_pos hpos, div_le_one hpos]
    have h1 : |sprod xs ys| = Real.sqrt ((sprod xs ys) ^ 2) :=
      (Real.sqrt_sq_eq_abs _).symm
    rw [h1]
    exact Real.sqrt_le_sqrt (sq_sprod_le xs ys)

/-- C7: (a) if the numeric part of a dataframe is exactly two perfectly
correlated columns, `correlation_filtering` at threshold 0.999 drops
exactly the later column of the pair; (b) if no pair of numeric columns
reaches exact correlation, `correlation_filtering` at threshold 1.0
drops nothing and returns the dataframe unchanged. -/
theorem correlation_filtering_spec :
    (∀ (df : DataFrame) (n1 n2 : String) (xs ys : List ℝ),
      select_numeric df = [⟨n1, ColData.num xs⟩, ⟨n2, ColData.num ys⟩] →
      n1 ≠ n2 → |pearson xs ys| = 1 →
      correlation_filtering df (999 / 1000)
        = df.filter (fun c => !(c.name == n2))) ∧
    (∀ df : DataFrame,
      (∀ i j : ℕ, i < j → j < (select_numeric df).length →
        |pearson (colAt (select_numeric df) i)
          (colAt (select_numeric df) j)| ≠ 1) →
      correlation_filtering df 1 = df) := by
  constructor
  · intro df n1 n2 xs ys hnum hne hcorr
    have hc0 : colAt [⟨n1, ColData.num xs⟩, ⟨n2, ColData.num ys⟩] 0 = xs := rfl
    have hc1 : colAt [⟨n1, ColData.num xs⟩, ⟨n2, ColData.num ys⟩] 1 = ys := rfl
    have hd0 : dropBool [⟨n1, ColData.num xs⟩, ⟨n2, ColData.num ys⟩]
        (999 / 1000) 0 = false := by
      unfold dropBool
      rw [decide_eq_false_iff_not]
      rintro ⟨i, hi, _⟩
      omega
    have hd1 : dropBool [⟨n1, ColData.num xs⟩, ⟨n2, ColData.num ys⟩]
        (999 / 1000) 1 = true := by
      unfold dropBool
      exact @decide_eq_true _ (Classical.propDecidable _)
        ⟨0, by norm_num, by rw [hc0, hc1, hcorr]; norm_num⟩
    have hdrops : drop_cols [⟨n1, ColData.num xs⟩, ⟨n2, ColData.num ys⟩]
        (999 / 1000) = [n2] := by
      unfold drop_cols
      rw [show (([⟨n1, ColData.num xs⟩, ⟨n2, ColData.num ys⟩] :
          DataFrame)).length = 2 from rfl]
      rw [show List.range 2 = [0, 1] from rfl]
      rw [List.filter_cons, List.filter_cons, List.filter_nil, hd0, hd1]
      simp
    unfold correlation_filtering
    rw [hnum, hdrops]
    rw [if_neg (by simp)]
    rw [if_neg (by simp)]
    apply List.filter_congr
    intro c _
    show (!([n2].contains c.name)) = (!(c.name == n2))
    simp [List.contains_cons, beq_eq_decide]
  · intro df hnone
    unfold correlation_filtering
    by_cases hlen : (select_numeric df).length < 2
    · rw [if_pos hlen]
    · rw [if_neg hlen]
      have hdrops : drop_cols (select_numeric df) 1 = [] := by
        unfold drop_cols
        have hfilt : (List.range (select_numeric df).length).filter
            (dropBool (select_numeric df) 1) = [] := by
          apply List.filter_eq_nil_iff.mpr
          intro j hj
          rw [Bool.not_eq_true]
          unfold dropBool
          rw [decide_eq_false_iff_not]
          rintro ⟨i, hij, habove⟩
          exact absurd habove (not_lt.mpr (abs_pearson_le_one _ _))
        rw [hfilt]
        rfl
      rw [hdrops]
      simp

lemma lmean_123 : lmean [1, 2, 3] = 2 := by
  norm_num [lmean, List.sum_cons, List.sum_nil]

lemma lmean_246 : lmean [2, 4, 6] = 4 := by
  norm_num [lmean, List.sum_cons, List.sum_nil]

lemma lmean_111 : lmean [1, 1, 1] = 1 := by
  norm_num [lmean, List.sum_cons, List.sum_nil]

lemma sprod_123_246 : sprod [1, 2, 3] [2, 4, 6] = 4 := by
  unfold sprod
  rw [lmean_123, lmean_246]
  norm_num [List.zipWith, List.sum_cons, List.sum_nil]

lemma sprod_123_123 : sprod [1, 2, 3] [1, 2, 3] = 2 := by
  unfold sprod
  rw [lmean_123]
  norm_num [List.zipWith, List.sum_cons, List.sum_nil]

lemma sprod_246_246 : sprod [2, 4, 6] [2, 4, 6] = 8 := by
  unfold sprod
  rw [lmean_246]
  norm_num [List.zipWith, List.sum_cons, List.sum_nil]

lemma sprod_123_111 : sprod [1, 2, 3] [1, 1, 1] = 0 := by
  unfold sprod
  rw [lmean_123, lmean_111]
  norm_num [List.zipWith, List.sum_cons, List.sum_nil]

lemma pearson_123_246 : |pearson [1, 2, 3] [2, 4, 6]| = 1 := by
  unfold pearson
  rw [sprod_123_246, sprod_123_123, sprod_246_246]
  rw [show (2 : ℝ) * 8 = 16 by norm_num]
  rw [show Real.sqrt 16 = 4 by
    rw [show (16 : ℝ) = 4 ^ 2 by norm_num]
    exact Real.sqrt_sq (by norm_num)]
  norm_num

lemma pearson_123_111 : |pearson [1, 2, 3] [1, 1, 1]| ≠ 1 := by
  unfold pearson
  rw [sprod_123_111, zero_div, abs_zero]
  norm_num

/-- Closed witness for C7: the pair x = [1,2,3], y = [2,4,6] is
perfectly correlated and filtering at 0.999 drops exactly `y`; the pair
x = [1,2,3], z = [1,1,1] (zero variance) is not, and filtering at 1.0
returns the dataframe unchanged. -/
theorem correlation_filtering_spec_witness :
    (|pearson [1, 2, 3] [2, 4, 6]| = 1 ∧
      correlation_filtering
          [⟨"x", ColData.num [1, 2, 3]⟩, ⟨"y", ColData.num [2, 4, 6]⟩]
          (999 / 1000)
        = [⟨"x", ColData.num [1, 2, 3]⟩]) ∧
    correlation_filtering
        [⟨"x", ColData.num [1, 2, 3]⟩, ⟨"z", ColData.num [1, 1, 1]⟩] 1
      = [⟨"x", ColData.num [1, 2, 3]⟩, ⟨"z", ColData.num [1, 1, 1]⟩] := by
  refine ⟨⟨pearson_123_246, ?_⟩, ?_⟩
  · have h := correlation_filtering_spec.1
      [⟨"x", ColData.num [1, 2, 3]⟩, ⟨"y", ColData.num [2, 4, 6]⟩]
      "x" "y" [1, 2, 3] [2, 4, 6] rfl (by decide) pearson_123_246
    rw [h]
    simp [List.filter]
  · apply correlation_filtering_spec.2
    intro i j hij hj
    have hlen : (select_numeric
        [⟨"x", ColData.num [1, 2, 3]⟩, ⟨"z", ColData.num [1, 1, 1]⟩]).length
        = 2 := rfl
    rw [hlen] at hj
    have hj1 : j = 1 := by omega
    have hi0 : i = 0 := by omega
    subst hj1
    subst hi0
    exact pearson_123_111

end LAFM
